import Mathlib

/-!
Verification of the rfc2603 v0 symbol-mangling encoder.

The development shallowly embeds the encoder's source:
* `src/rfc2603/src/lib.rs` — base-62 codec, identifier codec, path builder,
  `SymbolBuilder` and its type/generic-argument encoders;
* `src/rfc2603/src/v0_mangler.rs` — the `V0Mangler` state with its
  backreference cache (`try_cache_path`, `print_backref`);
* `src/rfc2603/src/rustc_port.rs` — the ported `V0SymbolMangler`
  (`print_type`, `print_const`) over facet shapes.

Text is modelled as `List Char` (`Str`).  Rust functions that can panic
(`push_ident` on a malformed identifier, Punycode failure) return `Option`;
`none` models the panic.  The external Punycode codec is an explicit
parameter `puny : Str → Option Str` threaded through the definitions, since
it is a dependency of the crate, not part of it.
-/

/-- Text is modelled as a list of characters. -/
abbrev Str := List Char

/-- Shorthand turning a string literal into the `Str` model. -/
def str (s : String) : Str := s.data

/-- The base-62 digit table of `to_base_62`:
`b"0123456789abcdefghijklmnopqrstuvwxyzABCDEFGHIJKLMNOPQRSTUVWXYZ"`. -/
def BASE62TABLE : Str :=
  str "0123456789abcdefghijklmnopqrstuvwxyzABCDEFGHIJKLMNOPQRSTUVWXYZ"

/-- `BASE_62[d]` — indexing into the digit table (the source index is always
in range, so the default is never used). -/
def base62Digit (d : Nat) : Char := BASE62TABLE.getD d '0'

/-- The digit-collecting loop of `to_base_62`: repeatedly take `x % 62` and
divide by 62.  Digits are produced least-significant first, as in the source
(the source then reverses them).  Structural recursion on a fuel argument;
`fuel = x` always suffices because `x / 62 < x` for `x > 0`. -/
def toBase62Go : Nat → Nat → Str
  | 0, _ => []
  | fuel + 1, x =>
      if x = 0 then []
      else base62Digit (x % 62) :: toBase62Go fuel (x / 62)

/-- The digit loop entered with its own value as fuel. -/
def toBase62Loop (x : Nat) : Str := toBase62Go x x

/-- `to_base_62` from `lib.rs`: `0` renders as `"0"`, otherwise the base-62
digits most-significant first. -/
def toBase62 (x : Nat) : Str :=
  if x = 0 then str "0" else (toBase62Loop x).reverse

/-- `push_integer_62` from `lib.rs`: `x = 0` is just the `"_"` terminator,
`x > 0` is `to_base_62 (x - 1)` followed by `"_"`.  Returns the appended
text. -/
def pushInteger62 (x : Nat) : Str :=
  (if x = 0 then [] else toBase62 (x - 1)) ++ str "_"

/-- `encode_integer_62` from `lib.rs`. -/
def encodeInteger62 (x : Nat) : Str := pushInteger62 x

/-- `push_opt_integer_62` from `lib.rs`: nothing for `x = 0`, otherwise the
tag followed by `push_integer_62 (x - 1)`. -/
def pushOptInteger62 (tag : Str) (x : Nat) : Str :=
  if x = 0 then [] else tag ++ pushInteger62 (x - 1)

/-- `push_disambiguator` from `lib.rs`: `push_opt_integer_62` with tag `"s"`. -/
def pushDisambiguator (dis : Nat) : Str := pushOptInteger62 (str "s") dis

/-- Decimal digit character. -/
def decDigit (d : Nat) : Char := Char.ofNat (48 + d)

/-- Decimal rendering loop (most-significant first), modelling the standard
`write!(output, "{}", n)` formatting used by `push_ident`.  Fuel-based
structural recursion; `fuel = n` always suffices. -/
def natReprGo : Nat → Nat → Str
  | 0, _ => []
  | fuel + 1, n =>
      if n = 0 then []
      else natReprGo fuel (n / 10) ++ [decDigit (n % 10)]

/-- The decimal loop entered with its own value as fuel. -/
def natReprLoop (n : Nat) : Str := natReprGo n n

/-- Decimal rendering of a natural number. -/
def natRepr (n : Nat) : Str :=
  if n = 0 then str "0" else natReprLoop n

/-- The identifier byte class accepted without transliteration by
`push_ident`: `b'_' | b'a'..=b'z' | b'A'..=b'Z' | b'0'..=b'9'`. -/
def charAllowed (c : Char) : Bool :=
  c.toNat = 95 || (97 ≤ c.toNat && c.toNat ≤ 122) ||
    (65 ≤ c.toNat && c.toNat ≤ 90) || (48 ≤ c.toNat && c.toNat ≤ 57)

/-- `push_ident`'s separator test: the first character is `'_'` or a digit
(`Some('_' | '0'..='9') = ident.chars().next()`). -/
def needSep : Str → Bool
  | [] => false
  | c :: _ => c = '_' || ('0' ≤ c && c ≤ '9')

/-- The length-prefixed form written by the tail of `push_ident`:
decimal length, a `'_'` separator when the payload starts with a digit or
underscore, then the payload verbatim. -/
def lenPayload (s : Str) : Str :=
  natRepr s.length ++ (if needSep s then str "_" else []) ++ s

/-- Replace the first `'-'` of a character list. -/
def replaceFirstHyphen : Str → Str
  | [] => []
  | c :: rest => if c = '-' then '_' :: rest else c :: replaceFirstHyphen rest

/-- `punycode_bytes.iter_mut().rfind(|c| c == b'-')` followed by `*c = b'_'`:
replace the last hyphen of the transliterated text with an underscore. -/
def replaceLastHyphen (s : Str) : Str :=
  (replaceFirstHyphen s.reverse).reverse

/-- `push_ident` from `lib.rs`.  The byte-validation loop panics (`none`) on
any ASCII byte outside the allowed class; any byte `0x80..=0xff` switches on
the Punycode path.  On the Punycode path the output is `'u'`, then the
length-prefixed transliterated text (with its last hyphen replaced by an
underscore); a transliteration failure panics (`none`).  Otherwise the output
is the length-prefixed identifier itself.  Returns the appended text. -/
def pushIdent (puny : Str → Option Str) (ident : Str) : Option Str :=
  if ident.any (fun c => c.toNat < 0x80 && !charAllowed c) then none
  else if ident.any (fun c => 0x80 ≤ c.toNat) then
    match puny ident with
    | none => none
    | some p => some (str "u" ++ lenPayload (replaceLastHyphen p))
  else
    some (lenPayload ident)

/-- `Namespace` from `lib.rs`. -/
inductive Namespace where
  | crate
  | type
  | value
  | closure
  | shim
deriving DecidableEq, Repr

/-- `Namespace::tag` from `lib.rs`. -/
def Namespace.tag : Namespace → Char
  | .crate => 'C'
  | .type => 't'
  | .value => 'v'
  | .closure => 'C'
  | .shim => 'S'

/-- `encode_crate_root` from `lib.rs`: `'C'` + disambiguator + identifier. -/
def encodeCrateRoot (puny : Str → Option Str) (name : Str) (dis : Nat) :
    Option Str :=
  (pushIdent puny name).map fun i => str "C" ++ pushDisambiguator dis ++ i

/-- `encode_crate_root_with_hash` from `lib.rs`: `'C'`, then — when the hash
text is nonempty — `'s'`, the hash, `'_'`, then the identifier. -/
def encodeCrateRootWithHash (puny : Str → Option Str) (name hash : Str) :
    Option Str :=
  (pushIdent puny name).map fun i =>
    str "C" ++ (if hash = [] then [] else str "s" ++ hash ++ str "_") ++ i

/-- A path segment `(name, namespace, disambiguator)`. -/
abbrev Segment := Str × Namespace × Nat

/-- The first-segment text of `encode_simple_path_with_crate_hash`. -/
def encodeFirstSegment (puny : Str → Option Str) (s : Segment)
    (crateHash : Option Str) : Option Str :=
  let (name, ns, dis) := s
  if ns = Namespace.crate then
    match crateHash with
    | some hash => encodeCrateRootWithHash puny name hash
    | none =>
        (pushIdent puny name).map fun i => str "C" ++ pushDisambiguator dis ++ i
  else
    (pushIdent puny name).map fun i => [ns.tag] ++ pushDisambiguator dis ++ i

/-- One iteration of the wrapping loop of
`encode_simple_path_with_crate_hash`: the new output is
`'N'`, the namespace tag, the entire previous output, the disambiguator and
the identifier. -/
def wrapSegment (puny : Str → Option Str) (acc : Option Str) (s : Segment) :
    Option Str :=
  let (name, ns, dis) := s
  match acc with
  | none => none
  | some prev =>
      (pushIdent puny name).map fun i =>
        str "N" ++ [ns.tag] ++ prev ++ pushDisambiguator dis ++ i

/-- `encode_simple_path_with_crate_hash` from `lib.rs`: empty input gives the
empty path; otherwise the first segment is printed (crate hash applying only
to a crate-namespace first segment) and every further segment wraps the
previous output. -/
def encodeSimplePathWithCrateHash (puny : Str → Option Str)
    (segments : List Segment) (crateHash : Option Str) : Option Str :=
  match segments with
  | [] => some []
  | s0 :: rest =>
      rest.foldl (wrapSegment puny) (encodeFirstSegment puny s0 crateHash)

/-- `encode_simple_path` from `lib.rs`. -/
def encodeSimplePath (puny : Str → Option Str) (segments : List Segment) :
    Option Str :=
  encodeSimplePathWithCrateHash puny segments none

/-- `encode_symbol` from `lib.rs`: prepend the `_R` prefix. -/
def encodeSymbol (path : Str) : Str := str "_R" ++ path

/-!
## `V0Mangler` (`src/rfc2603/src/v0_mangler.rs`)
-/

/-- Association-list lookup modelling `HashMap::get`: the most recent
insertion for a key wins. -/
def lookupA {α β : Type} [DecidableEq α] (k : α) : List (α × β) → Option β
  | [] => none
  | (k', v) :: rest => if k = k' then some v else lookupA k rest

/-- `V0Mangler` from `v0_mangler.rs`: the output buffer, the start offset
(length of the `_R` prefix) and the path-position cache.  `HashMap` is
modelled as an association list where insertion prepends. -/
structure V0Mangler where
  out : Str
  startOffset : Nat
  paths : List (Str × Nat)
deriving DecidableEq, Repr

/-- `V0Mangler::new`: output starts as the `_R` prefix, `start_offset` is its
length, the cache is empty. -/
def V0Mangler.new : V0Mangler :=
  { out := str "_R", startOffset := (str "_R").length, paths := [] }

/-- `V0Mangler::push`. -/
def V0Mangler.push (m : V0Mangler) (s : Str) : V0Mangler :=
  { m with out := m.out ++ s }

/-- `V0Mangler::push_integer_62`. -/
def V0Mangler.pushInt62 (m : V0Mangler) (x : Nat) : V0Mangler :=
  m.push (pushInteger62 x)

/-- `V0Mangler::push_disambiguator`. -/
def V0Mangler.pushDis (m : V0Mangler) (dis : Nat) : V0Mangler :=
  m.push (pushDisambiguator dis)

/-- `V0Mangler::push_ident`; `none` models the `push_ident` panic. -/
def V0Mangler.pushId (puny : Str → Option Str) (m : V0Mangler) (ident : Str) :
    Option V0Mangler :=
  (pushIdent puny ident).map m.push

/-- `V0Mangler::print_backref`: `'B'` followed by the base-62 encoding of
`i - start_offset`.  The source subtracts `usize`s; in every reachable state
`i ≥ start_offset`, so the truncated `Nat` subtraction agrees with it. -/
def V0Mangler.printBackref (m : V0Mangler) (i : Nat) : V0Mangler :=
  m.push (str "B" ++ pushInteger62 (i - m.startOffset))

/-- `V0Mangler::try_cache_path`: on a hit, emit a backreference to the stored
offset and return `true`; on a miss, record the current output length under
the key and return `false` (the caller then emits the full form). -/
def V0Mangler.tryCachePath (m : V0Mangler) (key : Str) : V0Mangler × Bool :=
  match lookupA key m.paths with
  | some pos => (m.printBackref pos, true)
  | none => ({ m with paths := (key, m.out.length) :: m.paths }, false)

/-- One public `V0Mangler` operation, for reasoning about whole encoding
sessions. -/
inductive MOp where
  | push (s : Str)
  | pushInt62 (x : Nat)
  | pushDis (dis : Nat)
  | pushId (ident : Str)
  | printBackref (i : Nat)
  | tryCachePath (key : Str)
deriving DecidableEq, Repr

/-- Apply one operation; `none` models an identifier panic. -/
def applyOp (puny : Str → Option Str) : MOp → V0Mangler → Option V0Mangler
  | .push s, m => some (m.push s)
  | .pushInt62 x, m => some (m.pushInt62 x)
  | .pushDis d, m => some (m.pushDis d)
  | .pushId i, m => V0Mangler.pushId puny m i
  | .printBackref i, m => some (m.printBackref i)
  | .tryCachePath k, m => some (m.tryCachePath k).1

/-- Run a list of operations left to right. -/
def runOps (puny : Str → Option Str) (m : V0Mangler) : List MOp → Option V0Mangler
  | [] => some m
  | op :: rest =>
      match applyOp puny op m with
      | none => none
      | some m' => runOps puny m' rest

/-!
## `SymbolBuilder` type and generic-argument encoders (`src/rfc2603/src/lib.rs`)
-/

/-- `LifetimeArg` from `lib.rs`. -/
inductive LifetimeArg where
  | erased
  | bound (index : Nat)
deriving DecidableEq, Repr

/-- `TypeArg` from `lib.rs`: the closed set of type shapes the builder
encodes. -/
inductive TypeArg where
  | bool | char
  | i8 | i16 | i32 | i64 | i128 | isize
  | u8 | u16 | u32 | u64 | u128 | usize
  | f32 | f64
  | strTy | never | unit
  | reference (lifetime : Option LifetimeArg) (mutable : Bool) (inner : TypeArg)
  | rawPtr (mutable : Bool) (inner : TypeArg)
  | tuple (elements : List TypeArg)
  | array (inner : TypeArg) (len : Nat)
  | slice (inner : TypeArg)

/-- `GenericArg` from `lib.rs`. -/
inductive GenericArg where
  | type (ty : TypeArg)
  | lifetime (lt : LifetimeArg)
  | const (val : Nat)

/-- `encode_lifetime_arg` from `lib.rs`: `'L'` + `push_integer_62 0` for an
erased lifetime, `'L'` + `push_integer_62 (index + 1)` for a bound one.
Returns the appended text (the source's `Result` is always `Ok`). -/
def encodeLifetimeArg : LifetimeArg → Str
  | .erased => str "L" ++ pushInteger62 0
  | .bound index => str "L" ++ pushInteger62 (index + 1)

mutual

/-- `encode_type_arg` from `lib.rs`.  Every branch of the source returns
`Ok`, so the embedding returns the appended text directly.  No cache is
consulted anywhere in this function. -/
def encodeTypeArg : TypeArg → Str
  | .bool => str "b"
  | .char => str "c"
  | .i8 => str "a"
  | .i16 => str "s"
  | .i32 => str "l"
  | .i64 => str "x"
  | .i128 => str "n"
  | .isize => str "i"
  | .u8 => str "h"
  | .u16 => str "t"
  | .u32 => str "m"
  | .u64 => str "y"
  | .u128 => str "o"
  | .usize => str "j"
  | .f32 => str "f"
  | .f64 => str "d"
  | .strTy => str "e"
  | .never => str "z"
  | .unit => str "u"
  | .reference lifetime mutable inner =>
      (if mutable then str "Q" else str "R") ++
        (match lifetime with
          | some lt => encodeLifetimeArg lt
          | none => str "L" ++ pushInteger62 0) ++
        encodeTypeArg inner
  | .rawPtr mutable inner =>
      (if mutable then str "O" else str "P") ++ encodeTypeArg inner
  | .tuple elements => str "T" ++ encodeTypeArgList elements ++ str "E"
  | .array inner len =>
      str "A" ++ encodeTypeArg inner ++ str "Kj" ++ pushInteger62 len
  | .slice inner => str "S" ++ encodeTypeArg inner

/-- The element loop of the tuple branch of `encode_type_arg`. -/
def encodeTypeArgList : List TypeArg → Str
  | [] => []
  | t :: rest => encodeTypeArg t ++ encodeTypeArgList rest

end

/-- `encode_generic_arg` from `lib.rs`: types via `encode_type_arg`,
lifetimes via `encode_lifetime_arg`, consts as `"Kj"` +
`push_integer_62 val`. -/
def encodeGenericArg : GenericArg → Str
  | .type ty => encodeTypeArg ty
  | .lifetime lt => encodeLifetimeArg lt
  | .const val => str "Kj" ++ pushInteger62 val

/-- The argument loop of `build_generic_instantiation`. -/
def encodeGenericArgs : List GenericArg → Str
  | [] => []
  | a :: rest => encodeGenericArg a ++ encodeGenericArgs rest

/-- `MethodInfo` from `lib.rs`. -/
structure MethodInfo where
  implPath : List (Str × Namespace)
  typeName : Str
  methodName : Str

/-- The configuration fields of `SymbolBuilder` from `lib.rs` (the unused
`path_cache` and the constant `start_offset` are omitted; `build` never reads
them). -/
structure SymbolBuilder where
  crateName : Str
  crateHash : Option Str
  segments : List (Str × Namespace)
  methodInfo : Option MethodInfo
  genericArgs : List GenericArg

/-- The error message of `build` for an empty path. -/
def emptyPathErr : Str :=
  str "Symbol path must have at least one segment (function, module, etc.)"

/-- The segment list `segments_with_crate` built by `build`: the crate name
with crate namespace and disambiguator 0, then every configured segment with
disambiguator 0. -/
def SymbolBuilder.segmentsWithCrate (b : SymbolBuilder) : List Segment :=
  (b.crateName, Namespace.crate, 0) ::
    b.segments.map (fun p => (p.1, p.2, 0))

/-- `build_generic_instantiation` from `lib.rs`: a fresh `V0Mangler`
(`out = "_R"`), then `"I"`, the item path, every generic argument in order,
and `"E"`.  `none` models an identifier panic inside the path. -/
def SymbolBuilder.buildGenericInstantiation (puny : Str → Option Str)
    (b : SymbolBuilder) : Option (Except Str Str) :=
  (encodeSimplePathWithCrateHash puny b.segmentsWithCrate b.crateHash).map
    fun path =>
      Except.ok (str "_R" ++ str "I" ++ path ++
        encodeGenericArgs b.genericArgs ++ str "E")

/-- The key used by `build_method_symbol` to cache the impl path.  The
source builds it with `format!("impl:{}:{:?}", …)`; the key's exact text is
irrelevant because it is inserted and looked up once within the same call,
so any fixed text stands in for it here. -/
def implPathKey (b : SymbolBuilder) : Str := str "impl:" ++ b.crateName

/-- The segment loop of `build_method_symbol`:
`path_append_ns(|_| {}, ns.tag(), 0, name)` for every impl-path segment. -/
def pushImplSegments (puny : Str → Option Str) (m : V0Mangler) :
    List (Str × Namespace) → Option V0Mangler
  | [] => some m
  | (name, ns) :: rest =>
      match (pushIdent puny name).map
          (fun i => m.push (str "N" ++ [ns.tag] ++ pushDisambiguator 0 ++ i)) with
      | none => none
      | some m' => pushImplSegments puny m' rest

/-- `build_method_symbol` from `lib.rs`: `"Nv"`, `"M"`, the impl path (crate
root plus impl-path segments, recorded in the path cache), then `"Nt"`, a
backreference to the impl path, the type name and the method name. -/
def SymbolBuilder.buildMethodSymbol (puny : Str → Option Str)
    (b : SymbolBuilder) : Option (Except Str Str) :=
  match b.methodInfo with
  | none => some (Except.error (str "Method info not set"))
  | some mi =>
      let m := (V0Mangler.new.push (str "Nv")).push (str "M")
      let implPathStart := m.out.length
      let rootText :=
        match b.crateHash with
        | some hash => encodeCrateRootWithHash puny b.crateName hash
        | none => encodeCrateRoot puny b.crateName 0
      match rootText with
      | none => none
      | some root =>
          match pushImplSegments puny (m.push root) mi.implPath with
          | none => none
          | some m1 =>
              let m2 := { m1 with paths := (implPathKey b, implPathStart) :: m1.paths }
              let m3 := m2.push (str "Nt")
              let m4 :=
                match lookupA (implPathKey b) m3.paths with
                | some pos => m3.printBackref pos
                | none => m3
              match V0Mangler.pushId puny m4 mi.typeName with
              | none => none
              | some m5 =>
                  match V0Mangler.pushId puny m5 mi.methodName with
                  | none => none
                  | some m6 => some (Except.ok m6.out)

/-- `SymbolBuilder::build` from `lib.rs`: a configured method takes the
method path; an empty segment list is a construction error; generic
arguments take the instantiation path; otherwise the plain path is encoded
and prefixed with `_R`. -/
def SymbolBuilder.build (puny : Str → Option Str) (b : SymbolBuilder) :
    Option (Except Str Str) :=
  if b.methodInfo.isSome then b.buildMethodSymbol puny
  else if b.segments.isEmpty then some (Except.error emptyPathErr)
  else if !b.genericArgs.isEmpty then b.buildGenericInstantiation puny
  else
    (encodeSimplePathWithCrateHash puny b.segmentsWithCrate b.crateHash).map
      fun path => Except.ok (encodeSymbol path)

/-!
## Ported mangler (`src/rfc2603/src/rustc_port.rs`)

`print_type` works over `facet::Shape`, a static description of a Rust
type: an identity (`ConstTypeId`, modelled as a `Nat`), an optional byte
size from the layout, the `type_identifier` text, and the `Type` structure.
Only the structure `print_type` inspects is modelled.  `print_lifetime` is
defined in the source but never called (the reference branch of
`print_type` omits the lifetime), so the binder stack is not part of the
embedded state.
-/

mutual

/-- `facet::Shape`: identity, layout size, `type_identifier`, structure. -/
inductive FShape where
  | mk (id : Nat) (size : Option Nat) (typeIdent : Str) (ty : FTy)

/-- The `facet::Type` cases distinguished by `print_type`. -/
inductive FTy where
  | primBool
  | primChar
  | primStr
  | primInt (signed : Bool)
  | primFloat
  | primNever
  | structTy (isTuple : Bool) (fields : List FShape)
  | userOther
  | refTy (mutable : Bool) (target : FShape)
  | rawTy (mutable : Bool) (target : FShape)
  | arrayTy (t : FShape) (n : Nat)
  | sliceTy (t : FShape)
  | otherTy

end

/-- The `ConstTypeId` of a shape (`ShapeKey`). -/
def FShape.id : FShape → Nat
  | .mk i _ _ _ => i

/-- The layout size of a shape. -/
def FShape.size : FShape → Option Nat
  | .mk _ s _ _ => s

/-- The `type_identifier` of a shape. -/
def FShape.typeIdent : FShape → Str
  | .mk _ _ t _ => t

/-- The `Type` structure of a shape. -/
def FShape.ty : FShape → FTy
  | .mk _ _ _ t => t

/-- The `basic_type` match of `print_type`: single-character tags for
primitives (widths resolved from the layout size) and for the zero-field
struct (the unit type); empty for everything else. -/
def basicType (s : FShape) : Str :=
  match s.ty with
  | .primBool => str "b"
  | .primChar => str "c"
  | .primStr => str "e"
  | .primInt true =>
      match s.size with
      | some 1 => str "a"
      | some 2 => str "s"
      | some 4 => str "l"
      | some 8 => str "x"
      | some 16 => str "n"
      | _ => str "i"
  | .primInt false =>
      match s.size with
      | some 1 => str "h"
      | some 2 => str "t"
      | some 4 => str "m"
      | some 8 => str "y"
      | some 16 => str "o"
      | _ => str "j"
  | .primFloat =>
      match s.size with
      | some 4 => str "f"
      | some 8 => str "d"
      | _ => []
  | .primNever => str "z"
  | .structTy _ [] => str "u"
  | _ => []

/-- The state of `V0SymbolMangler`: output buffer, prefix length, and the
type and const backreference caches (the path cache and binder stack play no
part in `print_type`/`print_const`). -/
structure MState where
  out : Str
  startOffset : Nat
  types : List (Nat × Nat)
  consts : List (Nat × Nat)
deriving DecidableEq, Repr

/-- `V0SymbolMangler::new`. -/
def MState.new : MState :=
  { out := str "_R", startOffset := (str "_R").length, types := [], consts := [] }

/-- `V0SymbolMangler::push`. -/
def MState.push (st : MState) (s : Str) : MState :=
  { st with out := st.out ++ s }

/-- `V0SymbolMangler::print_backref`: `'B'` + base-62 of `i - start_offset`
(truncated subtraction; every recorded offset is ≥ the prefix length). -/
def MState.printBackref (st : MState) (i : Nat) : MState :=
  st.push (str "B" ++ pushInteger62 (i - st.startOffset))

/-- `print_const` from `rustc_port.rs`: a cached value emits a backreference;
otherwise `'K'` + `push_integer_62 value` is emitted (no const-type tag in
this port) and the value is recorded at the offset where the emission
began. -/
def printConst (v : Nat) (st : MState) : MState :=
  match lookupA v st.consts with
  | some i => st.printBackref i
  | none =>
      let start := st.out.length
      let st' := st.push (str "K" ++ pushInteger62 v)
      { st' with consts := (v, start) :: st'.consts }

mutual

/-- `print_type` from `rustc_port.rs`.  A nonempty `basic_type` is pushed
directly (primitives are never cached).  Otherwise the type cache is
consulted: a hit emits one backreference and returns; a miss records the
current offset, emits the compound form (reference `R`/`Q` + target with no
lifetime, raw pointer `P`/`O` + target, array `A` + element + const length,
slice `S` + element, tuple `T` + fields + `E`, other user types their
`type_identifier`, anything else nothing), then records the key at the
remembered offset.  The source's `Result` is always `Ok`. -/
def printType (s : FShape) (st : MState) : MState :=
  let bt := basicType s
  if bt ≠ [] then st.push bt
  else
    match lookupA s.id st.types with
    | some i => st.printBackref i
    | none =>
        let start := st.out.length
        let st' :=
          match s with
          | .mk _ _ _ (.refTy mutable target) =>
              printType target (st.push (if mutable then str "Q" else str "R"))
          | .mk _ _ _ (.rawTy mutable target) =>
              printType target (st.push (if mutable then str "O" else str "P"))
          | .mk _ _ _ (.arrayTy t n) =>
              printConst n (printType t (st.push (str "A")))
          | .mk _ _ _ (.sliceTy t) => printType t (st.push (str "S"))
          | .mk _ _ _ (.structTy true fields) =>
              (printTypeList fields (st.push (str "T"))).push (str "E")
          | .mk _ _ ti (.structTy false _) => st.push ti
          | .mk _ _ ti .userOther => st.push ti
          | _ => st
        { st' with types := (s.id, start) :: st'.types }

/-- The field loop of the tuple branch of `print_type`. -/
def printTypeList (fields : List FShape) (st : MState) : MState :=
  match fields with
  | [] => st
  | f :: rest => printTypeList rest (printType f st)

end

/-!
## Specification-side definitions

These render parts of the specification's wording, to be compared against
the source-derived definitions above.
-/

/-- The specification's digit mapping: values 0–9 to `'0'`–`'9'`, 10–35 to
`'a'`–`'z'`, 36–61 to `'A'`–`'Z'`. -/
def specBase62Digit (d : Nat) : Char :=
  if d ≤ 9 then Char.ofNat (48 + d)
  else if d ≤ 35 then Char.ofNat (97 + (d - 10))
  else Char.ofNat (65 + (d - 36))

/-- The specification's "base-62 digits of n, most-significant first"
(the digits of 0 being the single digit `'0'`), via `Nat.digits`, which
lists digits least-significant first. -/
def specDigits62 (n : Nat) : Str :=
  if n = 0 then str "0" else ((Nat.digits 62 n).map specBase62Digit).reverse

/-- The claim's reading of the first (crate) segment of a path:
`'C'`, then the optional `"s" hash "_"` block, then the disambiguator, then
the encoded identifier. -/
def specFirstCrateSegment (puny : Str → Option Str) (name : Str) (dis : Nat)
    (crateHash : Option Str) : Option Str :=
  (pushIdent puny name).map fun i =>
    str "C" ++
      (match crateHash with
        | some hash => str "s" ++ hash ++ str "_"
        | none => []) ++
      pushDisambiguator dis ++ i

/-- The separator condition of the identifier claim, written out: the first
character exists and is an underscore or a decimal digit. -/
def specSepCond (ident : Str) : Bool :=
  match ident with
  | [] => false
  | c :: _ => c = '_' || ('0' ≤ c && c ≤ '9')

/-!
## Helper lemmas
-/

/-- The digit loop computes the base-62 digits (least-significant first)
whenever the fuel covers the value. -/
theorem toBase62Go_eq_digits (fuel x : Nat) (h : x ≤ fuel) :
    toBase62Go fuel x = (Nat.digits 62 x).map base62Digit := by
  induction fuel generalizing x with
  | zero =>
      have hx : x = 0 := Nat.le_zero.mp h
      subst hx
      simp [toBase62Go]
  | succ fuel ih =>
      by_cases hx : x = 0
      · subst hx; simp [toBase62Go]
      · have hpos : 0 < x := Nat.pos_of_ne_zero hx
        have hdiv : x / 62 ≤ fuel := by
          have : x / 62 < x := Nat.div_lt_self hpos (by omega)
          omega
        rw [toBase62Go, if_neg hx, ih _ hdiv,
          Nat.digits_def' (b := 62) (by omega) hpos]
        simp

/-- `to_base_62` renders exactly the base-62 digits, most-significant
first, with `0` rendered as `"0"`. -/
theorem toBase62_eq_specDigits (x : Nat) :
    toBase62 x = ((Nat.digits 62 x).map base62Digit).reverse ∨ x = 0 := by
  by_cases hx : x = 0
  · right; exact hx
  · left
    rw [toBase62, if_neg hx, toBase62Loop, toBase62Go_eq_digits x x le_rfl]

/-- The source digit table agrees with the specification's digit mapping on
every digit value below 62. -/
theorem base62Digit_eq_spec : ∀ d, d < 62 → base62Digit d = specBase62Digit d := by
  decide

/-- Every character produced by `base62Digit` on a digit value is in the
`[0-9a-zA-Z_]` class. -/
theorem charAllowed_base62Digit : ∀ d, d < 62 → charAllowed (base62Digit d) = true := by
  decide

/-- Every character of a `to_base_62` rendering is in the allowed class. -/
theorem charAllowed_toBase62 (y : Nat) : ∀ c ∈ toBase62 y, charAllowed c = true := by
  intro c hc
  by_cases hy : y = 0
  · subst hy
    simp only [toBase62, if_pos rfl] at hc
    have : c = '0' := by simpa [str] using hc
    subst this; decide
  · rw [toBase62, if_neg hy, toBase62Loop, toBase62Go_eq_digits y y le_rfl] at hc
    rw [List.mem_reverse, List.mem_map] at hc
    obtain ⟨d, hd, rfl⟩ := hc
    exact charAllowed_base62Digit d (Nat.digits_lt_base (by omega) hd)

/-- C3: the base-62 encoder emits only the `'_'` delimiter for 0, and for
`x > 0` the base-62 digits of `x - 1` most-significant first (0–9 as
`'0'`–`'9'`, 10–35 as `'a'`–`'z'`, 36–61 as `'A'`–`'Z'`) followed by `'_'`;
`encode 0 = "_"`, `encode 62 = "Z_"`, `encode 63 = "10_"`, and every output
character is in `[0-9a-zA-Z_]`. -/
theorem c3_base62_encoder :
    encodeInteger62 0 = str "_" ∧
    encodeInteger62 62 = str "Z_" ∧
    encodeInteger62 63 = str "10_" ∧
    (∀ x : Nat, 0 < x → encodeInteger62 x = specDigits62 (x - 1) ++ str "_") ∧
    (∀ x : Nat, ∀ c ∈ encodeInteger62 x, charAllowed c = true) := by
  refine ⟨by decide, by decide, by decide, ?_, ?_⟩
  · intro x hx
    have hxne : x ≠ 0 := by omega
    rw [encodeInteger62, pushInteger62, if_neg hxne]
    congr 1
    by_cases hy : x - 1 = 0
    · rw [hy]; rw [toBase62, if_pos rfl, specDigits62, if_pos rfl]
    · rw [toBase62, if_neg hy, toBase62Loop, toBase62Go_eq_digits _ _ le_rfl,
        specDigits62, if_neg hy]
      congr 1
      exact List.map_congr_left fun d hd =>
        base62Digit_eq_spec d (Nat.digits_lt_base (by omega) hd)
  · intro x c hc
    rw [encodeInteger62, pushInteger62] at hc
    rcases List.mem_append.mp hc with h | h
    · by_cases hx : x = 0
      · simp [hx] at h
      · rw [if_neg hx] at h
        exact charAllowed_toBase62 _ c h
    · have : c = '_' := by simpa [str] using h
      subst this; decide

/-- Witness for C3 at `x = 63`: the digit law and the alphabet law hold
there concretely. -/
theorem c3_witness :
    encodeInteger62 63 = specDigits62 62 ++ str "_" ∧ charAllowed 'Z' = true :=
  ⟨c3_base62_encoder.2.2.2.1 63 (by decide),
   c3_base62_encoder.2.2.2.2 62 'Z' (by decide)⟩

/-- A decimal digit value renders between `'0'` and `'9'`. -/
theorem decDigit_range : ∀ d, d < 10 → '0' ≤ decDigit d ∧ decDigit d ≤ '9' := by
  decide

/-- Every character of the decimal loop's rendering is a decimal digit. -/
theorem natReprGo_digits (fuel : Nat) :
    ∀ n, ∀ c ∈ natReprGo fuel n, '0' ≤ c ∧ c ≤ '9' := by
  induction fuel with
  | zero => intro n c hc; simp [natReprGo] at hc
  | succ fuel ih =>
      intro n c hc
      rw [natReprGo] at hc
      by_cases hn : n = 0
      · simp [hn] at hc
      · rw [if_neg hn] at hc
        rcases List.mem_append.mp hc with h | h
        · exact ih _ c h
        · have : c = decDigit (n % 10) := by simpa using h
          subst this
          exact decDigit_range _ (Nat.mod_lt _ (by omega))

/-- Every character of `natRepr n` is a decimal digit. -/
theorem natRepr_digits (n : Nat) : ∀ c ∈ natRepr n, '0' ≤ c ∧ c ≤ '9' := by
  intro c hc
  rw [natRepr] at hc
  by_cases hn : n = 0
  · rw [if_pos hn] at hc
    have : c = '0' := by simpa [str] using hc
    subst this; exact ⟨le_refl _, by decide⟩
  · rw [if_neg hn, natReprLoop] at hc
    exact natReprGo_digits n n c hc

/-- The decimal rendering is never empty. -/
theorem natRepr_ne_nil (n : Nat) : natRepr n ≠ [] := by
  rw [natRepr]
  by_cases hn : n = 0
  · simp [hn, str]
  · rw [if_neg hn, natReprLoop]
    cases n with
    | zero => exact absurd rfl hn
    | succ m =>
        rw [natReprGo, if_neg hn]
        simp

/-- On an identifier whose characters are all in the allowed class,
`push_ident` succeeds and appends exactly the length-prefixed form. -/
theorem pushIdent_ascii (puny : Str → Option Str) (ident : Str)
    (h : ∀ c ∈ ident, charAllowed c = true) :
    pushIdent puny ident = some (lenPayload ident) := by
  have h1 : ident.any (fun c => c.toNat < 0x80 && !charAllowed c) = false := by
    rw [List.any_eq_false]
    intro c hc
    simp [h c hc]
  have h2 : ident.any (fun c => 0x80 ≤ c.toNat) = false := by
    rw [List.any_eq_false]
    intro c hc
    have := h c hc
    simp only [charAllowed, Bool.or_eq_true, Bool.and_eq_true,
      decide_eq_true_eq] at this
    simp only [decide_eq_true_eq]
    omega
  rw [pushIdent, h1]
  simp only [Bool.false_eq_true, if_false, h2]

/-- The first character of the length-prefixed form is a decimal digit. -/
theorem lenPayload_head (s : Str) (c : Char)
    (h : (lenPayload s).head? = some c) : '0' ≤ c ∧ c ≤ '9' := by
  rw [lenPayload] at h
  rcases hrepr : natRepr s.length with _ | ⟨d, rest⟩
  · exact absurd hrepr (natRepr_ne_nil _)
  · rw [hrepr] at h
    simp only [List.cons_append, List.head?_cons, Option.some.injEq] at h
    rw [← h]
    exact natRepr_digits _ d (by rw [hrepr]; exact List.mem_cons_self _ _)

/-- C4: on identifiers over `{'_', 'a'-'z', 'A'-'Z', '0'-'9'}` the encoder
emits the decimal length, a `'_'` separator exactly when the first character
is a digit or underscore, then the identifier verbatim, never a `'u'`
prefix; whenever an identifier containing a byte ≥ 0x80 produces output,
that output begins with `'u'`; and the three documented examples hold. -/
theorem c4_identifier_encoding :
    (∀ puny ident, (∀ c ∈ ident, charAllowed c = true) →
      pushIdent puny ident =
        some (natRepr ident.length ++
          (if specSepCond ident then str "_" else []) ++ ident)) ∧
    (∀ puny ident out c, (∀ c ∈ ident, charAllowed c = true) →
      pushIdent puny ident = some out → out.head? = some c → c ≠ 'u') ∧
    (∀ puny ident out, (∃ c ∈ ident, 0x80 ≤ c.toNat) →
      pushIdent puny ident = some out → out.head? = some 'u') ∧
    (∀ puny, pushIdent puny (str "example") = some (str "7example")) ∧
    (∀ puny, pushIdent puny (str "_foo") = some (str "4__foo")) ∧
    (∀ puny, pushIdent puny (str "0abc") = some (str "4_0abc")) := by
  have hsep : ∀ ident : Str, specSepCond ident = needSep ident := by
    intro ident; cases ident <;> rfl
  refine ⟨?_, ?_, ?_, fun _ => rfl, fun _ => rfl, fun _ => rfl⟩
  · intro puny ident h
    rw [pushIdent_ascii puny ident h, lenPayload, hsep]
  · intro puny ident out c h hout hhead
    rw [pushIdent_ascii puny ident h] at hout
    obtain rfl : lenPayload ident = out := by simpa using hout
    have := lenPayload_head ident c hhead
    intro hc
    subst hc
    revert this
    decide
  · intro puny ident out hex hout
    rw [pushIdent] at hout
    rcases hif : ident.any (fun c => c.toNat < 0x80 && !charAllowed c) with _ | _
    · rw [hif] at hout
      have h2 : ident.any (fun c => 0x80 ≤ c.toNat) = true := by
        rw [List.any_eq_true]
        obtain ⟨c, hc, hc8⟩ := hex
        exact ⟨c, hc, by simpa using hc8⟩
      simp only [Bool.false_eq_true, if_false, h2, if_true] at hout
      rcases hp : puny ident with _ | p
      · rw [hp] at hout; exact absurd hout (by simp)
      · rw [hp] at hout
        obtain rfl : str "u" ++ lenPayload (replaceLastHyphen p) = out := by
          simpa using hout
        rfl
    · rw [hif] at hout
      simp at hout

/-- Witness for C4: the ASCII law at `"example"`, and the `'u'` law at
`"gödel"` with the transliteration returning `"gdel-5qa"`. -/
theorem c4_witness :
    pushIdent (fun _ => some (str "gdel-5qa")) (str "example") =
      some (natRepr (str "example").length ++
        (if specSepCond (str "example") then str "_" else []) ++ str "example") ∧
    (str "u8gdel_5qa").head? = some 'u' :=
  ⟨c4_identifier_encoding.1 (fun _ => some (str "gdel-5qa")) (str "example")
      (by decide),
   c4_identifier_encoding.2.2.1 (fun _ => some (str "gdel-5qa")) (str "gödel")
      (str "u8gdel_5qa") ⟨'ö', by decide, by decide⟩ (by decide)⟩

/-- C9: an identifier containing an ASCII byte outside the
alphanumeric/underscore class makes `push_ident` fail fatally — no output at
all is produced, for any transliteration codec. -/
theorem c9_malformed_identifier (puny : Str → Option Str) (ident : Str)
    (c : Char) (hc : c ∈ ident) (hascii : c.toNat < 0x80)
    (hbad : charAllowed c = false) : pushIdent puny ident = none := by
  have : ident.any (fun c => c.toNat < 0x80 && !charAllowed c) = true := by
    rw [List.any_eq_true]
    exact ⟨c, hc, by simp [hascii, hbad]⟩
  rw [pushIdent, if_pos this]

/-- Witness for C9 at the identifier `"a-b"` with its hyphen. -/
theorem c9_witness : pushIdent (fun _ => none) (str "a-b") = none :=
  c9_malformed_identifier (fun _ => none) (str "a-b") '-'
    (by decide) (by decide) (by decide)

/-- The wrapping fold of the path encoder succeeds whenever the accumulator
holds a value and every remaining segment name is in the allowed class. -/
theorem foldWrap_isSome (puny : Str → Option Str) :
    ∀ (segs : List Segment) (acc : Str),
      (∀ s ∈ segs, ∀ c ∈ s.1, charAllowed c = true) →
      ∃ out, segs.foldl (wrapSegment puny) (some acc) = some out := by
  intro segs
  induction segs with
  | nil => exact fun acc _ => ⟨acc, rfl⟩
  | cons s rest ih =>
      intro acc h
      obtain ⟨name, ns, dis⟩ := s
      have hname : pushIdent puny name = some (lenPayload name) :=
        pushIdent_ascii puny name (h _ (List.mem_cons_self _ _))
      have : wrapSegment puny (some acc) (name, ns, dis) =
          some (str "N" ++ [ns.tag] ++ acc ++ pushDisambiguator dis ++
            lenPayload name) := by
        simp [wrapSegment, hname]
      rw [List.foldl_cons, this]
      exact ih _ fun s hs => h s (List.mem_cons_of_mem _ hs)

/-- C10: the zero-length crate name is accepted: `encode_crate_root "" 0`
yields `"C0"`, a builder with an empty crate name and at least one segment
(whose names are all in the allowed class) builds successfully, and the
concrete builder with segment `foo` produces `_RNvC03foo`. -/
theorem c10_empty_crate_name :
    (∀ puny, encodeCrateRoot puny (str "") 0 = some (str "C0")) ∧
    (∀ puny (segs : List (Str × Namespace)), segs ≠ [] →
      (∀ p ∈ segs, ∀ c ∈ p.1, charAllowed c = true) →
      ∃ out, SymbolBuilder.build puny ⟨str "", none, segs, none, []⟩ =
        some (Except.ok out)) ∧
    SymbolBuilder.build (fun _ => none)
        ⟨str "", none, [(str "foo", Namespace.value)], none, []⟩ =
      some (Except.ok (str "_RNvC03foo")) := by
  refine ⟨fun _ => rfl, ?_, rfl⟩
  intro puny segs hne h
  rw [SymbolBuilder.build]
  have hisEmpty : segs.isEmpty = false := by
    cases segs with
    | nil => exact absurd rfl hne
    | cons _ _ => rfl
  simp only [Option.isSome_none, Bool.false_eq_true, if_false, hisEmpty,
    List.isEmpty_nil, Bool.not_true, SymbolBuilder.segmentsWithCrate]
  rw [encodeSimplePathWithCrateHash]
  have hfirst : encodeFirstSegment puny (str "", Namespace.crate, 0) none =
      some (str "C0") := rfl
  rw [hfirst]
  obtain ⟨out, hout⟩ := foldWrap_isSome puny
    (segs.map fun p => (p.1, p.2, 0)) (str "C0")
    (by
      intro s hs
      rw [List.mem_map] at hs
      obtain ⟨p, hp, rfl⟩ := hs
      exact h p hp)
  rw [hout]
  exact ⟨encodeSymbol out, rfl⟩

/-- Witness for C10 at segment list `[("foo", value)]`. -/
theorem c10_witness :
    ∃ out, SymbolBuilder.build (fun _ => none)
      ⟨str "", none, [(str "foo", Namespace.value)], none, []⟩ =
      some (Except.ok out) :=
  c10_empty_crate_name.2.1 (fun _ => none) [(str "foo", Namespace.value)]
    (by decide) (by decide)

/-- C5 counterexample: with a crate hash present, the code ignores the first
segment's disambiguator (`encode_crate_root_with_hash` never prints one),
while the claimed form `'C' ["s" hash "_"] disambiguator ident` would print
it: at segment `("a", crate, 1)` with hash `"h"` the code yields `"Csh_1a"`,
the claimed form `"Csh_s_1a"`. -/
theorem c5_counterexample :
    encodeSimplePathWithCrateHash (fun _ => none)
        [(str "a", Namespace.crate, 1)] (some (str "h")) =
      some (str "Csh_1a") ∧
    specFirstCrateSegment (fun _ => none) (str "a") 1 (some (str "h")) =
      some (str "Csh_s_1a") ∧
    (str "Csh_1a" : Str) ≠ str "Csh_s_1a" :=
  ⟨rfl, rfl, by decide⟩

/-- Appending one segment to a nonempty path wraps the previous encoding. -/
theorem encodePath_snoc (puny : Str → Option Str) (hash : Option Str)
    (segs : List Segment) (s : Segment) (h : segs ≠ []) :
    encodeSimplePathWithCrateHash puny (segs ++ [s]) hash =
      wrapSegment puny (encodeSimplePathWithCrateHash puny segs hash) s := by
  cases segs with
  | nil => exact absurd rfl h
  | cons s0 rest =>
      rw [List.cons_append, encodeSimplePathWithCrateHash,
        encodeSimplePathWithCrateHash, List.foldl_append]
      rfl

/-- The encoding of a nonempty segment-list prefix occurs verbatim inside
the encoding of any extension of it. -/
theorem encodePath_embeds (puny : Str → Option Str) (hash : Option Str)
    (segs : List Segment) (h : segs ≠ []) (p : Str)
    (hp : encodeSimplePathWithCrateHash puny segs hash = some p) :
    ∀ (rest : List Segment) (q : Str),
      encodeSimplePathWithCrateHash puny (segs ++ rest) hash = some q →
      ∃ u v, q = u ++ p ++ v := by
  intro rest
  induction rest using List.reverseRecOn with
  | nil =>
      intro q hq
      rw [List.append_nil, hp] at hq
      obtain rfl : p = q := by simpa using hq
      exact ⟨[], [], by simp⟩
  | append_singleton rs s ih =>
      intro q hq
      rw [← List.append_assoc] at hq
      have hne : segs ++ rs ≠ [] := by
        cases segs with
        | nil => exact absurd rfl h
        | cons _ _ => simp
      rw [encodePath_snoc puny hash (segs ++ rs) s hne] at hq
      cases hmid : encodeSimplePathWithCrateHash puny (segs ++ rs) hash with
      | none =>
          rw [hmid] at hq
          obtain ⟨name, ns, dis⟩ := s
          simp [wrapSegment] at hq
      | some mid =>
          rw [hmid] at hq
          obtain ⟨name, ns, dis⟩ := s
          cases hi : pushIdent puny name with
          | none => rw [wrapSegment, hi] at hq; simp at hq
          | some i =>
              rw [wrapSegment, hi] at hq
              obtain rfl :
                  str "N" ++ [ns.tag] ++ mid ++ pushDisambiguator dis ++ i
                    = q := by simpa using hq
              obtain ⟨u, v, rfl⟩ := ih mid hmid
              exact ⟨str "N" ++ [ns.tag] ++ u, v ++ pushDisambiguator dis ++ i,
                by simp [List.append_assoc]⟩

/-- C5 (amended): with no crate hash the first (crate) segment is
`'C' disambiguator ident`; with a crate hash it is
`'C' ["s" hash "_"] ident` — the disambiguator is ignored.  Every
subsequent segment wraps the entire previous output as
`'N' tag prev disambiguator ident`, so the encoding of every nonempty
proper prefix of the segment list occurs verbatim inside the full path.
`[crate "mycrate", value "foo"]` encodes to `"NvC7mycrate3foo"`. -/
theorem c5_path_encoding :
    (∀ puny (name : Str) (dis : Nat),
      encodeSimplePathWithCrateHash puny [(name, Namespace.crate, dis)] none =
        (pushIdent puny name).map fun i =>
          str "C" ++ pushDisambiguator dis ++ i) ∧
    (∀ puny (name hash : Str) (dis : Nat),
      encodeSimplePathWithCrateHash puny [(name, Namespace.crate, dis)]
          (some hash) =
        (pushIdent puny name).map fun i =>
          str "C" ++ (if hash = [] then [] else str "s" ++ hash ++ str "_") ++ i) ∧
    (∀ puny hash (segs : List Segment) (name : Str) (ns : Namespace)
        (dis : Nat) (prev i : Str), segs ≠ [] →
      encodeSimplePathWithCrateHash puny segs hash = some prev →
      pushIdent puny name = some i →
      encodeSimplePathWithCrateHash puny (segs ++ [(name, ns, dis)]) hash =
        some (str "N" ++ [ns.tag] ++ prev ++ pushDisambiguator dis ++ i)) ∧
    (∀ puny hash (segs rest : List Segment) (p q : Str), segs ≠ [] →
      encodeSimplePathWithCrateHash puny segs hash = some p →
      encodeSimplePathWithCrateHash puny (segs ++ rest) hash = some q →
      ∃ u v, q = u ++ p ++ v) ∧
    (∀ puny, encodeSimplePathWithCrateHash puny
        [(str "mycrate", Namespace.crate, 0), (str "foo", Namespace.value, 0)]
        none = some (str "NvC7mycrate3foo")) := by
  refine ⟨fun _ _ _ => rfl, fun _ _ _ _ => rfl, ?_, ?_, fun _ => rfl⟩
  · intro puny hash segs name ns dis prev i hne hprev hi
    rw [encodePath_snoc puny hash segs (name, ns, dis) hne, hprev,
      wrapSegment, hi]
    rfl
  · intro puny hash segs rest p q hne hp hq
    exact encodePath_embeds puny hash segs hne p hp rest q hq

/-- Witness for C5's wrap law: appending `("foo", value, 0)` to the
encoded crate root `C7mycrate` yields `NvC7mycrate3foo`. -/
theorem c5_witness :
    encodeSimplePathWithCrateHash (fun _ => none)
        ([(str "mycrate", Namespace.crate, 0)] ++ [(str "foo", Namespace.value, 0)])
        none =
      some (str "N" ++ [Namespace.value.tag] ++ str "C7mycrate" ++
        pushDisambiguator 0 ++ str "3foo") :=
  c5_path_encoding.2.2.1 (fun _ => none) none
    [(str "mycrate", Namespace.crate, 0)] (str "foo") Namespace.value 0
    (str "C7mycrate") (str "3foo") (by decide) rfl rfl

/-- C2 counterexample: a key recorded by `try_cache_path` and hit again
before anything else is emitted yields a backreference whose stored offset
(2) equals — is not strictly less than — the output length at the emission
point (2): the session `try_cache_path "k"; try_cache_path "k"` produces
`"_RB_"`, a backreference to its own position. -/
theorem c2_counterexample :
    (V0Mangler.new.tryCachePath (str "k")).2 = false ∧
    lookupA (str "k") (V0Mangler.new.tryCachePath (str "k")).1.paths = some 2 ∧
    (V0Mangler.new.tryCachePath (str "k")).1.out.length = 2 ∧
    ((V0Mangler.new.tryCachePath (str "k")).1.tryCachePath (str "k")).2 = true ∧
    ((V0Mangler.new.tryCachePath (str "k")).1.tryCachePath (str "k")).1.out =
      str "_RB_" ∧
    ¬ (2 : Nat) < 2 := by
  decide

/-- One mangler operation never shrinks the output and only ever adds cache
entries recorded at the pre-operation output length. -/
theorem applyOp_step (puny : Str → Option Str) (op : MOp) (m m' : V0Mangler)
    (h : applyOp puny op m = some m') :
    m.out.length ≤ m'.out.length ∧
    (∀ k v, lookupA k m.paths = some v → lookupA k m'.paths = some v) ∧
    (∀ k v, lookupA k m'.paths = some v →
      lookupA k m.paths = some v ∨ v = m.out.length) := by
  cases op with
  | push s =>
      obtain rfl : m.push s = m' := by simpa [applyOp] using h
      exact ⟨by simp [V0Mangler.push], fun k v hv => hv, fun k v hv => .inl hv⟩
  | pushInt62 x =>
      obtain rfl : m.pushInt62 x = m' := by simpa [applyOp] using h
      exact ⟨by simp [V0Mangler.pushInt62, V0Mangler.push], fun k v hv => hv,
        fun k v hv => .inl hv⟩
  | pushDis d =>
      obtain rfl : m.pushDis d = m' := by simpa [applyOp] using h
      exact ⟨by simp [V0Mangler.pushDis, V0Mangler.push], fun k v hv => hv,
        fun k v hv => .inl hv⟩
  | pushId ident =>
      rw [applyOp, V0Mangler.pushId] at h
      cases hi : pushIdent puny ident with
      | none => rw [hi] at h; exact absurd h (by simp)
      | some i =>
          rw [hi] at h
          obtain rfl : m.push i = m' := by simpa using h
          exact ⟨by simp [V0Mangler.push], fun k v hv => hv,
            fun k v hv => .inl hv⟩
  | printBackref i =>
      obtain rfl : m.printBackref i = m' := by simpa [applyOp] using h
      exact ⟨by simp [V0Mangler.printBackref, V0Mangler.push],
        fun k v hv => hv, fun k v hv => .inl hv⟩
  | tryCachePath key =>
      rw [applyOp, V0Mangler.tryCachePath] at h
      cases hl : lookupA key m.paths with
      | some pos =>
          rw [hl] at h
          obtain rfl : m.printBackref pos = m' := by simpa using h
          exact ⟨by simp [V0Mangler.printBackref, V0Mangler.push],
            fun k v hv => hv, fun k v hv => .inl hv⟩
      | none =>
          rw [hl] at h
          obtain rfl : { m with paths := (key, m.out.length) :: m.paths } = m' := by
            simpa using h
          refine ⟨le_refl _, ?_, ?_⟩
          · intro k v hv
            rw [lookupA]
            by_cases hk : k = key
            · subst hk; rw [hv] at hl; exact absurd hl (by simp)
            · rw [if_neg hk]; exact hv
          · intro k v hv
            rw [lookupA] at hv
            by_cases hk : k = key
            · rw [if_pos hk] at hv
              exact .inr (by simpa using hv.symm)
            · rw [if_neg hk] at hv
              exact .inl hv

/-- Recorded offsets never exceed the output length, across a whole run. -/
theorem runOps_offsets_le (puny : Str → Option Str) :
    ∀ (ops : List MOp) (m m' : V0Mangler),
      (∀ k v, lookupA k m.paths = some v → v ≤ m.out.length) →
      runOps puny m ops = some m' →
      ∀ k v, lookupA k m'.paths = some v → v ≤ m'.out.length := by
  intro ops
  induction ops with
  | nil =>
      intro m m' hinv hrun
      obtain rfl : m = m' := by simpa [runOps] using hrun
      exact hinv
  | cons op rest ih =>
      intro m m' hinv hrun
      rw [runOps] at hrun
      cases happ : applyOp puny op m with
      | none => rw [happ] at hrun; exact absurd hrun (by simp)
      | some m1 =>
          rw [happ] at hrun
          obtain ⟨hle, _, hnew⟩ := applyOp_step puny op m m1 happ
          refine ih m1 m' ?_ hrun
          intro k v hv
          rcases hnew k v hv with hold | hcur
          · exact le_trans (hinv k v hold) hle
          · omega

/-- C2 (amended): within one session each key is recorded at most once —
once present, its entry is never changed — at the byte offset equal to the
output length at the moment of the miss (immediately before the caller
emits the full form); a hit emits exactly one backreference to the stored
offset; and in any run from a fresh mangler every stored offset is at most
(not in general strictly less than) the output length. -/
theorem c2_cache_invariants :
    (∀ puny op (m m' : V0Mangler) k v, applyOp puny op m = some m' →
      lookupA k m.paths = some v → lookupA k m'.paths = some v) ∧
    (∀ (m : V0Mangler) k, lookupA k m.paths = none →
      m.tryCachePath k = ({ m with paths := (k, m.out.length) :: m.paths }, false)) ∧
    (∀ (m : V0Mangler) k i, lookupA k m.paths = some i →
      m.tryCachePath k =
        (m.push (str "B" ++ pushInteger62 (i - m.startOffset)), true)) ∧
    (∀ puny (ops : List MOp) (m' : V0Mangler),
      runOps puny V0Mangler.new ops = some m' →
      ∀ k i, lookupA k m'.paths = some i → i ≤ m'.out.length) := by
  refine ⟨?_, ?_, ?_, ?_⟩
  · intro puny op m m' k v happ hv
    exact (applyOp_step puny op m m' happ).2.1 k v hv
  · intro m k h
    rw [V0Mangler.tryCachePath, h]
  · intro m k i h
    rw [V0Mangler.tryCachePath, h]
    rfl
  · intro puny ops m' hrun
    exact runOps_offsets_le puny ops V0Mangler.new m'
      (by intro k v hv; simp [V0Mangler.new, lookupA] at hv) hrun

/-- Witness for C2 at the run `tryCachePath "k"`: the recorded offset 2 is
at most the output length 2. -/
theorem c2_witness :
    (2 : Nat) ≤ (V0Mangler.mk (str "_R") 2 [(str "k", 2)]).out.length :=
  c2_cache_invariants.2.2.2 (fun _ => none) [.tryCachePath (str "k")]
    (V0Mangler.mk (str "_R") 2 [(str "k", 2)]) (by decide) (str "k") 2
    (by decide)

/-- `print_const` preserves the prefix length. -/
theorem printConst_startOffset (v : Nat) (st : MState) :
    (printConst v st).startOffset = st.startOffset := by
  rw [printConst]
  cases lookupA v st.consts <;> rfl

/-- An integer primitive always has a nonempty basic tag. -/
theorem basicType_primInt (id : Nat) (sz : Option Nat) (ti : Str) (signed : Bool) :
    basicType (.mk id sz ti (.primInt signed)) ≠ [] := by
  simp only [basicType, FShape.ty, FShape.size]
  split <;> (try split) <;> simp_all [str]

/-- A `print_type` cache hit on a non-basic shape emits exactly one
backreference token and nothing else. -/
theorem printType_hit (s : FShape) (st : MState) (i : Nat)
    (hb : basicType s = []) (hl : lookupA s.id st.types = some i) :
    printType s st = st.printBackref i := by
  cases s with
  | mk id sz ti ty =>
      simp only [FShape.id] at hl
      cases ty with
      | primBool => exact absurd hb (by simp [basicType, FShape.ty, str])
      | primChar => exact absurd hb (by simp [basicType, FShape.ty, str])
      | primStr => exact absurd hb (by simp [basicType, FShape.ty, str])
      | primNever => exact absurd hb (by simp [basicType, FShape.ty, str])
      | primInt signed => exact absurd hb (basicType_primInt id sz ti signed)
      | primFloat =>
          rw [printType, hb]
          · simp only [ne_eq, not_true_eq_false, if_false, FShape.id, hl]
          all_goals (intros; simp_all)
      | otherTy =>
          rw [printType, hb]
          · simp only [ne_eq, not_true_eq_false, if_false, FShape.id, hl]
          all_goals (intros; simp_all)
      | userOther =>
          rw [printType, hb]
          simp only [ne_eq, not_true_eq_false, if_false, FShape.id, hl]
      | structTy isTuple fields =>
          cases isTuple <;>
            (rw [printType, hb]
             simp only [ne_eq, not_true_eq_false, if_false, FShape.id, hl])
      | refTy mu target =>
          rw [printType, hb]
          simp only [ne_eq, not_true_eq_false, if_false, FShape.id, hl]
      | rawTy mu target =>
          rw [printType, hb]
          simp only [ne_eq, not_true_eq_false, if_false, FShape.id, hl]
      | arrayTy t n =>
          rw [printType, hb]
          simp only [ne_eq, not_true_eq_false, if_false, FShape.id, hl]
      | sliceTy t =>
          rw [printType, hb]
          simp only [ne_eq, not_true_eq_false, if_false, FShape.id, hl]

mutual

/-- `print_type` preserves the prefix length. -/
theorem printType_startOffset (s : FShape) (st : MState) :
    (printType s st).startOffset = st.startOffset := by
  cases s with
  | mk id sz ti ty =>
      cases ty with
      | refTy mu target =>
          rw [printType]
          split
          · rfl
          · split
            · rfl
            · exact printType_startOffset target _
      | rawTy mu target =>
          rw [printType]
          split
          · rfl
          · split
            · rfl
            · exact printType_startOffset target _
      | arrayTy t n =>
          rw [printType]
          split
          · rfl
          · split
            · rfl
            · exact (printConst_startOffset n _).trans (printType_startOffset t _)
      | sliceTy t =>
          rw [printType]
          split
          · rfl
          · split
            · rfl
            · exact printType_startOffset t _
      | structTy isTuple fields =>
          cases isTuple with
          | true =>
              rw [printType]
              split
              · rfl
              · split
                · rfl
                · exact printTypeList_startOffset fields _
          | false =>
              rw [printType]
              split
              · rfl
              · split
                · rfl
                · rfl
      | userOther =>
          rw [printType]
          split
          · rfl
          · split
            · rfl
            · rfl
      | otherTy =>
          rw [printType]
          · split
            · rfl
            · split
              · rfl
              · rfl
          all_goals (intros; simp_all)
      | primBool =>
          rw [printType]
          · split
            · rfl
            · split
              · rfl
              · rfl
          all_goals (intros; simp_all)
      | primChar =>
          rw [printType]
          · split
            · rfl
            · split
              · rfl
              · rfl
          all_goals (intros; simp_all)
      | primStr =>
          rw [printType]
          · split
            · rfl
            · split
              · rfl
              · rfl
          all_goals (intros; simp_all)
      | primInt signed =>
          rw [printType]
          · split
            · rfl
            · split
              · rfl
              · rfl
          all_goals (intros; simp_all)
      | primFloat =>
          rw [printType]
          · split
            · rfl
            · split
              · rfl
              · rfl
          all_goals (intros; simp_all)
      | primNever =>
          rw [printType]
          · split
            · rfl
            · split
              · rfl
              · rfl
          all_goals (intros; simp_all)

/-- The tuple field loop preserves the prefix length. -/
theorem printTypeList_startOffset (fields : List FShape) (st : MState) :
    (printTypeList fields st).startOffset = st.startOffset := by
  cases fields with
  | nil => rfl
  | cons f rest =>
      rw [printTypeList, printTypeList_startOffset rest, printType_startOffset f]

end

/-- A `print_type` cache miss on a non-basic shape records the shape key at
the output offset where its emission began. -/
theorem printType_miss_records (s : FShape) (st : MState)
    (hb : basicType s = []) (hl : lookupA s.id st.types = none) :
    lookupA s.id (printType s st).types = some st.out.length := by
  cases s with
  | mk id sz ti ty =>
      simp only [FShape.id] at hl ⊢
      cases ty with
      | primBool => exact absurd hb (by simp [basicType, FShape.ty, str])
      | primChar => exact absurd hb (by simp [basicType, FShape.ty, str])
      | primStr => exact absurd hb (by simp [basicType, FShape.ty, str])
      | primNever => exact absurd hb (by simp [basicType, FShape.ty, str])
      | primInt signed => exact absurd hb (basicType_primInt id sz ti signed)
      | primFloat =>
          rw [printType, hb]
          · simp only [ne_eq, not_true_eq_false, if_false, FShape.id, hl, lookupA,
              if_pos]
          all_goals (intros; simp_all)
      | otherTy =>
          rw [printType, hb]
          · simp only [ne_eq, not_true_eq_false, if_false, FShape.id, hl, lookupA,
              if_pos]
          all_goals (intros; simp_all)
      | userOther =>
          rw [printType, hb]
          simp only [ne_eq, not_true_eq_false, if_false, FShape.id, hl, lookupA,
            if_pos]
      | structTy isTuple fields =>
          cases isTuple <;>
            (rw [printType, hb]
             simp only [ne_eq, not_true_eq_false, if_false, FShape.id, hl, lookupA,
               if_pos])
      | refTy mu target =>
          rw [printType, hb]
          simp only [ne_eq, not_true_eq_false, if_false, FShape.id, hl, lookupA,
            if_pos]
      | rawTy mu target =>
          rw [printType, hb]
          simp only [ne_eq, not_true_eq_false, if_false, FShape.id, hl, lookupA,
            if_pos]
      | arrayTy t n =>
          rw [printType, hb]
          simp only [ne_eq, not_true_eq_false, if_false, FShape.id, hl, lookupA,
            if_pos]
      | sliceTy t =>
          rw [printType, hb]
          simp only [ne_eq, not_true_eq_false, if_false, FShape.id, hl, lookupA,
            if_pos]

/-- Printing the same non-basic shape twice from a state that has not seen
it: the second print appends exactly one backreference to the offset where
the first print began. -/
theorem printType_repeat (s : FShape) (st : MState)
    (hb : basicType s = []) (hl : lookupA s.id st.types = none) :
    printType s (printType s st) =
      (printType s st).push
        (str "B" ++ pushInteger62 (st.out.length - st.startOffset)) := by
  have h1 := printType_miss_records s st hb hl
  have h2 := printType_hit s (printType s st) st.out.length hb h1
  rw [h2, MState.printBackref, printType_startOffset]

/-- A zero-field struct shape (the unit type) always prints as `'u'`,
regardless of cache state — never as `\"TE\"`. -/
theorem printType_unit_struct (id : Nat) (sz : Option Nat) (ti : Str)
    (k : Bool) (st : MState) :
    printType (.mk id sz ti (.structTy k [])) st = st.push (str "u") := by
  cases k <;>
    (rw [printType]
     split
     · simp [basicType, FShape.ty]
     · next h => simp [basicType, FShape.ty, str] at h)

/-- An uncached nonempty tuple shape prints as `'T'`, its fields in order,
then `'E'`. -/
theorem printType_tuple_miss (id : Nat) (sz : Option Nat) (ti : Str)
    (f : FShape) (fs : List FShape) (st : MState)
    (hl : lookupA id st.types = none) :
    (printType (.mk id sz ti (.structTy true (f :: fs))) st).out =
      ((printTypeList (f :: fs) (st.push (str "T"))).push (str "E")).out := by
  rw [printType,
    if_neg (show ¬ basicType (.mk id sz ti (.structTy true (f :: fs))) ≠ [] by
      simp [basicType, FShape.ty])]
  simp only [FShape.id, hl]

/-- The builder's type-argument list encoder distributes over append. -/
theorem encodeTypeArgList_append (xs ys : List TypeArg) :
    encodeTypeArgList (xs ++ ys) =
      encodeTypeArgList xs ++ encodeTypeArgList ys := by
  induction xs with
  | nil => rfl
  | cons t rest ih =>
      rw [List.cons_append, encodeTypeArgList, encodeTypeArgList, ih,
        List.append_assoc]

/-- C1 counterexample: the builder's type encoder never consults a cache —
encoding the tuple `(u32,)` twice in one build emits the full form `TmE`
twice, and the symbol contains no backreference token `'B'` at all. -/
theorem c1_counterexample :
    SymbolBuilder.build (fun _ => none)
        ⟨str "mycrate", none, [(str "foo", Namespace.value)], none,
          [.type (.tuple [.u32]), .type (.tuple [.u32])]⟩ =
      some (Except.ok (str "_RINvC7mycrate3fooTmETmEE")) ∧
    encodeTypeArg (.tuple [.u32]) = str "TmE" ∧
    ¬ 'B' ∈ str "_RINvC7mycrate3fooTmETmEE" :=
  ⟨rfl, rfl, by decide⟩

/-- C1 (amended): the builder's `encode_type_arg` performs no caching — a
compound shape occurring twice is emitted in full, identically, both times;
the ported mangler's `print_type` does cache: a hit on a non-basic shape key
replaces the entire encoding with the single token
`'B' + base-62(offset − prefix)`, a miss records the key at the offset where
emission began, so printing the same non-basic shape twice emits it fully
once and as one backreference the second time (not in general strictly
shorter than the full form). -/
theorem c1_backreference_compression :
    (∀ (a b : List TypeArg) (t : TypeArg),
      encodeTypeArgList (a ++ t :: b ++ [t]) =
        encodeTypeArgList a ++ encodeTypeArg t ++ encodeTypeArgList b ++
          encodeTypeArg t) ∧
    (∀ (s : FShape) (st : MState) (i : Nat), basicType s = [] →
      lookupA s.id st.types = some i →
      printType s st = st.push (str "B" ++ pushInteger62 (i - st.startOffset))) ∧
    (∀ (s : FShape) (st : MState), basicType s = [] →
      lookupA s.id st.types = none →
      lookupA s.id (printType s st).types = some st.out.length) ∧
    (∀ (s : FShape) (st : MState), basicType s = [] →
      lookupA s.id st.types = none →
      printType s (printType s st) =
        (printType s st).push
          (str "B" ++ pushInteger62 (st.out.length - st.startOffset))) := by
  refine ⟨?_, ?_, ?_, ?_⟩
  · intro a b t
    have hsingle : encodeTypeArgList [t] = encodeTypeArg t := by
      rw [encodeTypeArgList, encodeTypeArgList, List.append_nil]
    rw [show a ++ t :: b ++ [t] = a ++ ([t] ++ b ++ [t]) by simp,
      encodeTypeArgList_append, encodeTypeArgList_append,
      encodeTypeArgList_append, hsingle]
    simp [List.append_assoc]
  · intro s st i hb hl
    exact printType_hit s st i hb hl
  · intro s st hb hl
    exact printType_miss_records s st hb hl
  · intro s st hb hl
    exact printType_repeat s st hb hl

/-- Witness for C1 at a slice-of-u8 shape from a fresh mangler: the second
print appends the backreference token. -/
theorem c1_witness :
    printType (.mk 5 none [] (.sliceTy (.mk 1 (some 1) [] (.primInt false))))
        (printType (.mk 5 none [] (.sliceTy (.mk 1 (some 1) [] (.primInt false))))
          MState.new) =
      (printType (.mk 5 none [] (.sliceTy (.mk 1 (some 1) [] (.primInt false))))
          MState.new).push
        (str "B" ++
          pushInteger62 (MState.new.out.length - MState.new.startOffset)) :=
  c1_backreference_compression.2.2.2
    (.mk 5 none [] (.sliceTy (.mk 1 (some 1) [] (.primInt false))))
    MState.new (by decide) (by decide)

/-- C7 counterexample: the builder's tuple branch applied to zero elements
emits the empty bracket `"TE"`, not the unit primitive `'u'`. -/
theorem c7_counterexample :
    encodeTypeArg (.tuple []) = str "TE" ∧ str "TE" ≠ str "u" :=
  ⟨rfl, by decide⟩

/-- C7 (amended): a tuple encodes as `'T'` + its elements in order + `'E'`
in the builder (so `(u32, i64)` gives `"TmxE"`); the unit type is the
builder's separate `Unit` variant encoding `'u'`; in the ported mangler a
zero-field struct shape always prints `'u'` and never reaches the tuple
branch, while a nonempty tuple shape prints `'T'` + fields + `'E'`; but the
builder's `Tuple` variant applied to an empty element list does emit
`"TE"`. -/
theorem c7_tuple_encoding :
    (∀ es, encodeTypeArg (.tuple es) =
      str "T" ++ encodeTypeArgList es ++ str "E") ∧
    encodeTypeArg .unit = str "u" ∧
    encodeTypeArg (.tuple [.u32, .i64]) = str "TmxE" ∧
    (∀ (id : Nat) (sz : Option Nat) (ti : Str) (k : Bool) (st : MState),
      printType (.mk id sz ti (.structTy k [])) st = st.push (str "u")) ∧
    (∀ (id : Nat) (sz : Option Nat) (ti : Str) (f : FShape)
        (fs : List FShape) (st : MState), lookupA id st.types = none →
      (printType (.mk id sz ti (.structTy true (f :: fs))) st).out =
        ((printTypeList (f :: fs) (st.push (str "T"))).push (str "E")).out) :=
  ⟨fun _ => rfl, rfl, rfl, printType_unit_struct, printType_tuple_miss⟩

/-- Witness for C7's tuple law at a one-field tuple shape from a fresh
mangler. -/
theorem c7_witness :
    (printType
        (.mk 3 none [] (.structTy true [.mk 1 (some 1) [] (.primInt false)]))
        MState.new).out =
      ((printTypeList [FShape.mk 1 (some 1) [] (.primInt false)]
          (MState.new.push (str "T"))).push (str "E")).out :=
  c7_tuple_encoding.2.2.2.2 3 none [] (.mk 1 (some 1) [] (.primInt false)) []
    MState.new (by decide)

/-- C8 counterexample: the ported mangler's `print_const` emits `'K'`
followed directly by the base-62 value — no `'j'` const-type tag — so
`print_const 5` on a fresh mangler yields `"_RK4_"`, not `"_RKj4_"`. -/
theorem c8_counterexample :
    printConst 5 MState.new =
      { out := str "_RK4_", startOffset := 2, types := [], consts := [(5, 2)] } ∧
    str "_RK4_" ≠ str "_R" ++ str "Kj" ++ pushInteger62 5 :=
  ⟨by decide, by decide⟩

/-- C8 (amended): the builder's generic-argument encoder emits
`'K' + 'j' + base-62(value)` for a const argument; the ported mangler's
`print_const` first consults the const cache (a hit emits one
backreference), and on a miss emits `'K' + base-62(value)` with no
const-type tag, recording the value at the offset where emission began. -/
theorem c8_const_encoding :
    (∀ v, encodeGenericArg (.const v) = str "Kj" ++ pushInteger62 v) ∧
    (∀ (v : Nat) (st : MState), lookupA v st.consts = none →
      printConst v st =
        { st.push (str "K" ++ pushInteger62 v) with
            consts := (v, st.out.length) :: st.consts }) ∧
    (∀ (v : Nat) (st : MState) (i : Nat), lookupA v st.consts = some i →
      printConst v st =
        st.push (str "B" ++ pushInteger62 (i - st.startOffset))) := by
  refine ⟨fun _ => rfl, ?_, ?_⟩
  · intro v st h
    rw [printConst, h]
    rfl
  · intro v st i h
    rw [printConst, h]
    rfl

/-- Witness for C8's miss law at value 5 from a fresh mangler. -/
theorem c8_witness :
    printConst 5 MState.new =
      { MState.new.push (str "K" ++ pushInteger62 5) with
          consts := (5, MState.new.out.length) :: MState.new.consts } :=
  c8_const_encoding.2.1 5 MState.new (by decide)

/-- C6: when generic arguments are attached (no method terminal, at least
one segment), the built symbol is `"_R"` + `'I'` + the item path + each
argument in declaration order + `'E'`; a lifetime argument encodes as `'L'`
+ base-62 of an index where 0 means erased and a bound lifetime uses
index + 1; `foo` in `mycrate` instantiated with u32 builds
`_RINvC7mycrate3foomE`, and with an immutable reference to u32
`_RINvC7mycrate3fooRL_mE`. -/
theorem c6_generic_instantiation :
    (∀ puny (b : SymbolBuilder), b.methodInfo = none → b.segments ≠ [] →
      b.genericArgs ≠ [] →
      SymbolBuilder.build puny b =
        (encodeSimplePathWithCrateHash puny b.segmentsWithCrate b.crateHash).map
          fun path => Except.ok (str "_R" ++ str "I" ++ path ++
            encodeGenericArgs b.genericArgs ++ str "E")) ∧
    encodeLifetimeArg .erased = str "L" ++ pushInteger62 0 ∧
    (∀ i, encodeLifetimeArg (.bound i) = str "L" ++ pushInteger62 (i + 1)) ∧
    (∀ puny, SymbolBuilder.build puny
        ⟨str "mycrate", none, [(str "foo", Namespace.value)], none,
          [.type .u32]⟩ =
      some (Except.ok (str "_RINvC7mycrate3foomE"))) ∧
    (∀ puny, SymbolBuilder.build puny
        ⟨str "mycrate", none, [(str "foo", Namespace.value)], none,
          [.type (.reference none false .u32)]⟩ =
      some (Except.ok (str "_RINvC7mycrate3fooRL_mE"))) := by
  refine ⟨?_, rfl, fun _ => rfl, fun _ => rfl, fun _ => rfl⟩
  intro puny b hm hseg hargs
  obtain ⟨cn, ch, segs, mi, ga⟩ := b
  simp only at hm
  subst hm
  have hsegE : segs.isEmpty = false := by
    cases segs with
    | nil => exact absurd rfl hseg
    | cons _ _ => rfl
  have hgaE : ga.isEmpty = false := by
    cases ga with
    | nil => exact absurd rfl hargs
    | cons _ _ => rfl
  rw [SymbolBuilder.build]
  simp only [Option.isSome_none, Bool.false_eq_true, if_false, hsegE, hgaE,
    Bool.not_false, if_true]
  rfl

/-- Witness for C6's build law at the `foo::<u32>` builder. -/
theorem c6_witness :
    SymbolBuilder.build (fun _ => none)
        ⟨str "mycrate", none, [(str "foo", Namespace.value)], none,
          [.type .u32]⟩ =
      (encodeSimplePathWithCrateHash (fun _ => none)
          (SymbolBuilder.segmentsWithCrate
            ⟨str "mycrate", none, [(str "foo", Namespace.value)], none,
              [.type .u32]⟩) none).map
        fun path => Except.ok (str "_R" ++ str "I" ++ path ++
          encodeGenericArgs [.type .u32] ++ str "E") :=
  c6_generic_instantiation.1 (fun _ => none)
    ⟨str "mycrate", none, [(str "foo", Namespace.value)], none, [.type .u32]⟩
    rfl (by decide) (List.cons_ne_nil _ _)
